import Mathlib

/-!
Verification of the NEXUS-RSI wave orchestration engine
(`wave/wave_orchestrator.py`, `wave/wave_integration.py`).

The orchestration logic is embedded shallowly:
* pure configuration and selection functions are translated directly;
* filesystem access inside `analyze_complexity` is abstracted by an
  `FsInfo` record describing what the `Path` calls would observe
  (existence, file/directory kind, number of `*.py` files, and whether
  access raises — the source wraps the whole block in `try/except: pass`);
* the body of a phase (the source simulates the external capability
  provider with `asyncio.sleep` plus hardcoded result dictionaries, and
  wraps it in `try/except` that marks the phase `failed` on any
  exception) is abstracted by a `PhaseOutcome` parameter: either the
  provider raises (`failed`) or it completes, reporting a
  `performance_gain` string which the source's simulation fixes to
  `"35%"` for the optimization phase;
* the agent scores consumed by the integration bridge
  (`AgentOrchestrator.get_agent_score`, which answers from mutable agent
  state) are abstracted by a score function parameter;
* database writes are reflected as an event trace (`WaveEvent`) so that
  ordering claims about checkpoint and phase records are statable.

Scores and rates are modelled as rationals.
-/

namespace NexusWave

/-- Wave orchestration strategies (`WaveStrategy` enum in the source). -/
inductive WaveStrategy where
  | progressive
  | systematic
  | adaptive
  | enterprise
deriving DecidableEq, Repr

/-- Standard wave phases (`WavePhase` enum in the source, in declaration
order: review, planning, implementation, validation, optimization). -/
inductive WavePhase where
  | review
  | planning
  | implementation
  | validation
  | optimization
deriving DecidableEq, Repr

/-- The fields of a `WaveContext` that the orchestration logic reads.
`current_phase`, `phase_results`, `metrics` and `start_time` are mutated
or used only for logging/persistence payloads and are reflected in the
trace instead. -/
structure WaveContext where
  wave_id : String
  strategy : WaveStrategy
  complexity_score : ℚ
  file_count : Nat
  operation_types : List String
  domains : List String
deriving DecidableEq, Repr

/-- Per-strategy configuration (`strategy_configs` values in the source).
`iterations` is `none` for the adaptive strategy's `'auto'`. -/
structure StrategyConfig where
  phases : List WavePhase
  iterations : Option Nat
  checkpoint_frequency : String
  rollback_enabled : Bool
  parallel_execution : Bool
deriving DecidableEq, Repr

/-- `self.strategy_configs` from `WaveOrchestrator.__init__`. -/
def strategy_configs : WaveStrategy → StrategyConfig
  | .progressive =>
      ⟨[.review, .implementation, .validation], some 3, "per_iteration", true, false⟩
  | .systematic =>
      ⟨[.review, .planning, .implementation, .validation, .optimization],
        some 1, "per_phase", true, false⟩
  | .adaptive => ⟨[], none, "adaptive", true, true⟩
  | .enterprise =>
      ⟨[.review, .planning, .implementation, .validation, .optimization],
        some 1, "continuous", true, true⟩

/-- `WaveOrchestrator.select_strategy`: first-match-wins cascade of `if`
statements over the context profile. -/
def select_strategy (ctx : WaveContext) : WaveStrategy :=
  if ctx.file_count > 100 ∧ ctx.complexity_score > 7/10 then .enterprise
  else if ctx.domains.length > 2 ∧ ctx.operation_types.length > 3 then .adaptive
  else if ctx.complexity_score > 4/5 ∧ "security_audit" ∈ ctx.operation_types then
    .systematic
  else if "optimization" ∈ ctx.operation_types ∨ "refactoring" ∈ ctx.operation_types then
    .progressive
  else .systematic

/-- `WaveOrchestrator.select_adaptive_phases`: builds the phase list by
conditional appends, starting from `[REVIEW]`. -/
def select_adaptive_phases (ctx : WaveContext) : List WavePhase :=
  [WavePhase.review]
    ++ (if ctx.complexity_score > 7/10 then [WavePhase.planning] else [])
    ++ [WavePhase.implementation]
    ++ (if "testing" ∈ ctx.operation_types ∨ ctx.complexity_score > 6/10 then
          [WavePhase.validation] else [])
    ++ (if "optimization" ∈ ctx.operation_types ∨
          "performance_tuning" ∈ ctx.operation_types then
          [WavePhase.optimization] else [])

/-- What the `Path` calls in `analyze_complexity` would observe for a
target: whether access raises (the source swallows it with
`except: pass`), whether the path exists, is a file, is a directory, and
how many `*.py` files `rglob` finds under it. -/
structure FsInfo where
  raises : Bool
  pathExists : Bool
  isFile : Bool
  isDir : Bool
  pyCount : Nat
deriving DecidableEq, Repr

/-- Does `pat` occur at the start of `s` (character lists)? -/
def charsStartWith : List Char → List Char → Bool
  | _, [] => true
  | [], _ :: _ => false
  | a :: s, b :: p => a = b && charsStartWith s p

/-- Does `pat` occur contiguously anywhere in `s`?  Python's
`pat in s` substring test on character lists. -/
def charsContain (pat : List Char) : List Char → Bool
  | [] => pat.isEmpty
  | c :: rest => charsStartWith (c :: rest) pat || charsContain pat rest

/-- Python's `pat in s` substring test on strings. -/
def strContains (s pat : String) : Bool :=
  charsContain pat.toList s.toList

/-- Python's `target.lower()` (the targets and keywords involved are
ASCII). -/
def lowerString (s : String) : String := String.mk (s.toList.map Char.toLower)

/-- `operation_keywords` dict from `analyze_complexity`, in insertion
order. -/
def operation_keywords : List (String × String) :=
  [("optimize", "optimization"), ("refactor", "refactoring"),
   ("security", "security_audit"), ("performance", "performance_tuning"),
   ("quality", "quality_improvement"), ("test", "testing"),
   ("document", "documentation")]

/-- `domain_keywords` dict from `analyze_complexity`, in insertion
order. -/
def domain_keywords : List (String × List String) :=
  [("frontend", ["ui", "component", "react", "vue"]),
   ("backend", ["api", "server", "database", "endpoint"]),
   ("infrastructure", ["docker", "kubernetes", "deploy"]),
   ("security", ["auth", "vulnerability", "encrypt"]),
   ("data", ["etl", "pipeline", "analytics"])]

/-- `WaveOrchestrator.analyze_complexity`.  Returns
`(complexity_score, file_count, operation_types, domains)`.  The file
analysis block is driven by `fs`; the keyword scans run on the lowered
target string exactly as in the source. -/
def analyze_complexity (fs : FsInfo) (target : String) :
    ℚ × Nat × List String × List String :=
  let t := lowerString target
  let base : ℚ × Nat :=
    if fs.raises then (0, 0)
    else if fs.pathExists then
      if fs.isFile then (3/10, 1)
      else if fs.isDir then
        (min ((3:ℚ)/10 + (fs.pyCount : ℚ) * (1/100)) 1, fs.pyCount)
      else (0, 0)
    else (0, 0)
  let file_count := base.2
  let operation_types :=
    (operation_keywords.filter (fun kv => strContains t kv.1)).map Prod.snd
  let domains :=
    (domain_keywords.filter (fun kv => kv.2.any (fun kw => strContains t kw))).map
      Prod.fst
  let afterOps : ℚ := base.1 + (operation_types.length : ℚ) * (1/10)
  let afterDoms : ℚ := afterOps + (domains.length : ℚ) * (1/20)
  let clamped : ℚ := min afterDoms 1
  let adjusted : ℚ :=
    if file_count > 100 then max clamped (4/5)
    else if file_count > 50 then max clamped (7/10)
    else clamped
  (adjusted, file_count, operation_types, domains)

/-- Outcome of the external capability provider for one phase
invocation: either the provider raises (the `except` branch of
`execute_phase` marks the phase `failed`), or the phase body completes,
reporting a `performance_gain` string for the optimization phase (the
source's simulated provider always reports `"35%"`). -/
inductive PhaseOutcome where
  | failed
  | completed (performance_gain : String)
deriving DecidableEq, Repr

/-- The phase result record built by `execute_phase` and stored into
`wave_results['phases']`: the phase, its final status string, and the
optimization payload's `performance_gain` when present (only an
optimization phase that completed has one — on failure the exception
fires before the payload dict is assigned). -/
structure PhaseResult where
  phase : WavePhase
  status : String
  performance_gain : Option String
deriving DecidableEq, Repr

/-- Persistence events emitted during `execute_wave`, in write order:
`checkpoint p` for the `wave_checkpoints` insert of `create_checkpoint`,
`phaseStart p` for the `wave_phases` insert at the top of
`execute_phase`, `phaseEnd p status` for the `wave_phases` update at its
end. -/
inductive WaveEvent where
  | checkpoint (phase : WavePhase)
  | phaseStart (phase : WavePhase)
  | phaseEnd (phase : WavePhase) (status : String)
deriving DecidableEq, Repr

/-- `WaveOrchestrator.execute_phase`, with the provider call abstracted
by `o`. -/
def execute_phase (p : WavePhase) (o : PhaseOutcome) : PhaseResult :=
  match o with
  | .failed => ⟨p, "failed", none⟩
  | .completed gain =>
      ⟨p, "completed", if p = WavePhase.optimization then some gain else none⟩

/-- The `checkpoint_frequency in ['per_phase', 'continuous']` test
guarding `create_checkpoint` inside the phase loop. -/
def doCheckpoint (freq : String) : Bool :=
  freq = "per_phase" || freq = "continuous"

/-- The phase list `execute_wave` iterates over: the strategy config's
list, replaced by `select_adaptive_phases` for the adaptive strategy. -/
def wavePhases (ctx : WaveContext) : List WavePhase :=
  if ctx.strategy = WaveStrategy.adaptive then select_adaptive_phases ctx
  else (strategy_configs ctx.strategy).phases

/-- The phase loop of `execute_wave`: per phase, optionally checkpoint,
run the phase, record its result, count it when completed, and `break`
when it failed and the config has `rollback_enabled`.  Returns the
recorded phase results in order, the `phases_completed` count, and the
persistence event trace. -/
def runPhases (cfg : StrategyConfig) (outcome : WavePhase → PhaseOutcome) :
    List WavePhase → List PhaseResult × Nat × List WaveEvent
  | [] => ([], 0, [])
  | p :: rest =>
    let ck : List WaveEvent :=
      if doCheckpoint cfg.checkpoint_frequency then [WaveEvent.checkpoint p] else []
    let r := execute_phase p (outcome p)
    let ev := ck ++ [WaveEvent.phaseStart p, WaveEvent.phaseEnd p r.status]
    let inc := if r.status = "completed" then 1 else 0
    if r.status = "failed" && cfg.rollback_enabled then
      ([r], inc, ev)
    else
      let tail := runPhases cfg outcome rest
      (r :: tail.1, inc + tail.2.1, ev ++ tail.2.2)

/-- The outcome of one `execute_wave` run: recorded phase results, final
metric counters, the persisted wave status, and the persistence trace. -/
structure WaveResult where
  wave_id : String
  strategy : WaveStrategy
  phases : List PhaseResult
  phases_completed : Nat
  total_phases : Nat
  success_rate : ℚ
  status : String
  trace : List WaveEvent
deriving DecidableEq, Repr

/-- `WaveOrchestrator.execute_wave`: run the strategy's phases, then
compute `success_rate = phases_completed / len(phases)` (0 for an empty
list) and persist status `'completed'` when the rate is 1.0, else
`'partial'`. -/
def execute_wave (ctx : WaveContext) (outcome : WavePhase → PhaseOutcome) :
    WaveResult :=
  let ps := wavePhases ctx
  let run := runPhases (strategy_configs ctx.strategy) outcome ps
  let rate : ℚ := if ps.isEmpty then 0 else (run.2.1 : ℚ) / (ps.length : ℚ)
  ⟨ctx.wave_id, ctx.strategy, run.1, run.2.1, ps.length, rate,
    if rate = 1 then "completed" else "partial", run.2.2⟩

/-- The convergence read in `run_progressive_waves`:
`results['phases'].get('optimization', {}).get('optimization', {})
.get('performance_gain', '0%')` — the recorded gain when the
optimization phase ran and completed, the `'0%'` default otherwise. -/
def perfGain (r : WaveResult) : String :=
  match r.phases.find? (fun pr => pr.phase = WavePhase.optimization) with
  | some pr => pr.performance_gain.getD "0%"
  | none => "0%"

/-- The early-stop test of `run_progressive_waves`. -/
def converged (r : WaveResult) : Prop :=
  r.success_rate = 1 ∧ perfGain r = "0%"

instance (r : WaveResult) : Decidable (converged r) := by
  unfold converged; infer_instance

/-- The in-place mutation `context.wave_id = f"{context.wave_id}_iter{i+1}"`
performed at the top of iteration `i` (0-based) of
`run_progressive_waves`: the suffixes accumulate across passes. -/
def nextIterCtx (ctx : WaveContext) (i : Nat) : WaveContext :=
  ⟨ctx.wave_id ++ "_iter" ++ toString (i + 1), ctx.strategy,
    ctx.complexity_score, ctx.file_count, ctx.operation_types, ctx.domains⟩

/-- The iteration loop of `run_progressive_waves`, pass index `i`
(0-based) with `rem` passes remaining.  The source mutates
`context.wave_id` before each pass, so the mutated context flows into
the next pass.  `outcome i` is the provider behavior during pass `i`. -/
def progressiveLoop (outcome : Nat → WavePhase → PhaseOutcome) :
    WaveContext → Nat → Nat → List WaveResult
  | _, _, 0 => []
  | ctx, i, rem + 1 =>
    let r := execute_wave (nextIterCtx ctx i) (outcome i)
    if converged r then [r]
    else r :: progressiveLoop outcome (nextIterCtx ctx i) (i + 1) rem

/-- Default value of the `iterations` parameter of
`run_progressive_waves`. -/
def default_iterations : Nat := 3

/-- `WaveOrchestrator.run_progressive_waves`: up to `iterations` passes,
stopping early when a pass converged; returns the pass results in
order. -/
def run_progressive_waves (ctx : WaveContext)
    (outcome : Nat → WavePhase → PhaseOutcome) (iterations : Nat) :
    List WaveResult :=
  progressiveLoop outcome ctx 0 iterations

/-- `WaveAgentBridge.phase_agent_map`: primary capability, secondary
capabilities, parallel flag, per phase. -/
def phase_agent_map : WavePhase → String × List String × Bool
  | .review => ("quality", ["security", "performance"], true)
  | .planning => ("performance", ["quality"], false)
  | .implementation => ("quality", ["security"], false)
  | .validation => ("security", ["quality", "monitor"], true)
  | .optimization => ("performance", ["monitor"], true)

/-- The result record of `WaveAgentBridge.execute_wave_with_agents` that
the enterprise fan-out consumes: the overall score and the bridge
status string. -/
structure BridgeResult where
  wave_id : String
  strategy : WaveStrategy
  overall_score : ℚ
  status : String
deriving DecidableEq, Repr

/-- The per-phase score aggregate of `execute_wave_with_agents`:
`average = (primary_score + Σ secondary_scores) / (1 + |secondaries|)`,
the capabilities per phase coming from `phase_agent_map`. -/
def phaseAvg (score : String → ℚ) (p : WavePhase) : ℚ :=
  (score (phase_agent_map p).1 + ((phase_agent_map p).2.1.map score).sum)
    / (1 + ((phase_agent_map p).2.1.length : ℚ))

/-- `WaveAgentBridge.execute_wave_with_agents`, with
`AgentOrchestrator.get_agent_score` abstracted by `score`.
`overall_score` is the mean of the per-phase averages over the wave's
phase list (adaptive selection included) and `status = 'success'` iff
`overall_score > 0.7`, else `'needs_improvement'`. -/
def execute_wave_with_agents (ctx : WaveContext) (score : String → ℚ) :
    BridgeResult :=
  let ps := wavePhases ctx
  let overall : ℚ := (ps.map (phaseAvg score)).sum / (ps.length : ℚ)
  ⟨ctx.wave_id, ctx.strategy, overall,
    if overall > 7/10 then "success" else "needs_improvement"⟩

/-- The summary block of `WaveAgentBridge.run_enterprise_wave`. -/
structure EnterpriseSummary where
  total_targets : Nat
  successful : Nat
  failed : Nat
  average_score : ℚ
deriving DecidableEq, Repr

/-- The per-target bridge waves the enterprise fan-out launches (each
target given with the filesystem view its complexity analysis sees):
analyze the target, build an enterprise-strategy context, run the
bridge wave.  `agentScore i` is the score provider observed by target
`i`'s wave (the waves run concurrently against mutable agent state).
The source's `generate_id` hashes the current time; wave ids play no
role in the aggregation and are left empty. -/
def enterpriseResults (targets : List (String × FsInfo))
    (agentScore : Nat → String → ℚ) : List BridgeResult :=
  (targets.enum).map (fun ta =>
    let a := analyze_complexity ta.2.2 ta.2.1
    execute_wave_with_agents
      ⟨"", WaveStrategy.enterprise, a.1, a.2.1, a.2.2.1, a.2.2.2⟩
      (agentScore ta.1))

/-- `WaveAgentBridge.run_enterprise_wave`: run all the per-target waves,
count waves with status `'success'` as successful and the rest as
failed, and average `overall_score` over all results. -/
def run_enterprise_wave (targets : List (String × FsInfo))
    (agentScore : Nat → String → ℚ) :
    List BridgeResult × EnterpriseSummary :=
  let results := enterpriseResults targets agentScore
  let successful := (results.filter (fun r => r.status = "success")).length
  let failed := (results.filter (fun r => ¬ r.status = "success")).length
  let avg : ℚ := (results.map BridgeResult.overall_score).sum / (results.length : ℚ)
  (results, ⟨targets.length, successful, failed, avg⟩)

/-! Theorems. -/

/-- Follows the spec's words for the Strategy Selector: the five rules in
the stated precedence order, first match wins.  Compared against the
`select_strategy` translation of the source. -/
def select_strategy_spec (ctx : WaveContext) : WaveStrategy :=
  if ctx.file_count > 100 ∧ ctx.complexity_score > 7/10 then .enterprise
  else if ctx.domains.length > 2 ∧ ctx.operation_types.length > 3 then .adaptive
  else if ctx.complexity_score > 4/5 ∧ "security_audit" ∈ ctx.operation_types then
    .systematic
  else if "optimization" ∈ ctx.operation_types ∨ "refactoring" ∈ ctx.operation_types then
    .progressive
  else .systematic

/-- C1: the Strategy Selector is a pure function of the WaveContext
profile, evaluated with first-match-wins precedence — (1) file_count >
100 and complexity_score > 0.7 gives Enterprise; (2) more than 2 domains
and more than 3 operation_types gives Adaptive; (3) complexity_score >
0.8 with "security_audit" gives Systematic; (4) "optimization" or
"refactoring" gives Progressive; (5) otherwise Systematic — and in
particular every context with file_count > 100 and complexity_score >
0.7 selects Enterprise. -/
theorem select_strategy_first_match (ctx : WaveContext) :
    select_strategy ctx = select_strategy_spec ctx ∧
    (ctx.file_count > 100 → ctx.complexity_score > 7/10 →
      select_strategy ctx = WaveStrategy.enterprise) := by
  refine ⟨rfl, fun h1 h2 => ?_⟩
  unfold select_strategy
  rw [if_pos ⟨h1, h2⟩]

/-- Witness for C1: a concrete context with 150 files and complexity 0.9
selects Enterprise. -/
theorem select_strategy_first_match_witness :
    select_strategy ⟨"w", WaveStrategy.progressive, 9/10, 150, [], []⟩ =
      WaveStrategy.enterprise :=
  (select_strategy_first_match ⟨"w", WaveStrategy.progressive, 9/10, 150, [], []⟩).2
    (by decide) (by norm_num)

/-- C4: the Adaptive Phase Planner's output starts with REVIEW and
contains IMPLEMENTATION; PLANNING is included iff complexity_score >
0.7; VALIDATION iff "testing" is an operation type or complexity_score >
0.6; OPTIMIZATION iff "optimization" or "performance_tuning" is an
operation type; and the output is a sublist of the fixed order REVIEW,
PLANNING, IMPLEMENTATION, VALIDATION, OPTIMIZATION. -/
theorem select_adaptive_phases_shape (ctx : WaveContext) :
    (select_adaptive_phases ctx).head? = some WavePhase.review ∧
    WavePhase.implementation ∈ select_adaptive_phases ctx ∧
    (WavePhase.planning ∈ select_adaptive_phases ctx ↔
      ctx.complexity_score > 7/10) ∧
    (WavePhase.validation ∈ select_adaptive_phases ctx ↔
      ("testing" ∈ ctx.operation_types ∨ ctx.complexity_score > 6/10)) ∧
    (WavePhase.optimization ∈ select_adaptive_phases ctx ↔
      ("optimization" ∈ ctx.operation_types ∨
        "performance_tuning" ∈ ctx.operation_types)) ∧
    (select_adaptive_phases ctx).Sublist
      [WavePhase.review, WavePhase.planning, WavePhase.implementation,
       WavePhase.validation, WavePhase.optimization] := by
  unfold select_adaptive_phases
  by_cases h1 : ctx.complexity_score > 7/10 <;>
    by_cases h2 : "testing" ∈ ctx.operation_types ∨ ctx.complexity_score > 6/10 <;>
      by_cases h3 : "optimization" ∈ ctx.operation_types ∨
          "performance_tuning" ∈ ctx.operation_types <;>
        simp only [if_pos, if_neg, h1, h2, h3, ite_true, ite_false] <;>
          refine ⟨rfl, by simp, by simp [h1], by simp [h2], by simp [h3], ?_⟩ <;>
            decide

/-- Witness for C4 at a concrete context: complexity 0.75 with operation
type "optimization" plans all five phases in order. -/
theorem select_adaptive_phases_shape_witness :
    (select_adaptive_phases ⟨"wd", WaveStrategy.adaptive, 3/4, 10,
        ["optimization"], []⟩).head? = some WavePhase.review ∧
    select_adaptive_phases ⟨"wd", WaveStrategy.adaptive, 3/4, 10,
        ["optimization"], []⟩ =
      [WavePhase.review, WavePhase.planning, WavePhase.implementation,
       WavePhase.validation, WavePhase.optimization] :=
  ⟨(select_adaptive_phases_shape ⟨"wd", WaveStrategy.adaptive, 3/4, 10,
      ["optimization"], []⟩).1, by norm_num [select_adaptive_phases]⟩

/-- The operation-type tags `analyze_complexity` collects for a target
string. -/
def opsOf (target : String) : List String :=
  (operation_keywords.filter (fun kv => strContains (lowerString target) kv.1)).map
    Prod.snd

/-- The domain tags `analyze_complexity` collects for a target string. -/
def domsOf (target : String) : List String :=
  (domain_keywords.filter
    (fun kv => kv.2.any (fun kw => strContains (lowerString target) kw))).map Prod.fst

/-- Base complexity score for an existing directory with `n` Python
files: `min(0.3 + 0.01·n, 1.0)`. -/
def dirBaseScore (n : Nat) : ℚ := min ((3:ℚ)/10 + (n : ℚ) * (1/100)) 1

/-- The scale-up floor applied last: 0.8 beyond 100 files, 0.7 beyond
50, no floor otherwise. -/
def scaleFloor (n : Nat) : ℚ :=
  if n > 100 then 4/5 else if n > 50 then 7/10 else 0

lemma dirBaseScore_nonneg (n : Nat) : 0 ≤ dirBaseScore n :=
  le_min (by positivity) (by norm_num)

lemma scaleFloor_le_one (n : Nat) : scaleFloor n ≤ 1 := by
  unfold scaleFloor; split_ifs <;> norm_num

/-- The clamped keyword-adjusted score of a directory target, before
the scale-up floor. -/
def preFloorScore (n : Nat) (target : String) : ℚ :=
  min (dirBaseScore n + ((opsOf target).length : ℚ) * (1/10)
    + ((domsOf target).length : ℚ) * (1/20)) 1

lemma preFloorScore_nonneg (n : Nat) (target : String) :
    0 ≤ preFloorScore n target := by
  refine le_min ?_ (by norm_num)
  have h0 := dirBaseScore_nonneg n
  have h1 : (0:ℚ) ≤ ((opsOf target).length : ℚ) * (1/10) := by positivity
  have h2 : (0:ℚ) ≤ ((domsOf target).length : ℚ) * (1/20) := by positivity
  linarith

/-- The scale-adjustment ite of the source is the max with
`scaleFloor`, for any nonnegative pre-floor score. -/
lemma floor_ite_eq_max (pre : ℚ) (n : Nat) (hpre : 0 ≤ pre) :
    (if n > 100 then max pre (4/5)
     else if n > 50 then max pre (7/10) else pre) = max pre (scaleFloor n) := by
  unfold scaleFloor
  by_cases h100 : n > 100
  · rw [if_pos h100, if_pos h100]
  · rw [if_neg h100, if_neg h100]
    by_cases h50 : n > 50
    · rw [if_pos h50, if_pos h50]
    · rw [if_neg h50, if_neg h50, max_eq_left hpre]

/-- Closed form of `analyze_complexity` on an existing directory,
shaped exactly as the source computes it. -/
lemma analyze_complexity_dir_eq (fs : FsInfo) (target : String)
    (hr : fs.raises = false) (he : fs.pathExists = true)
    (hf : fs.isFile = false) (hd : fs.isDir = true) :
    analyze_complexity fs target =
      (if fs.pyCount > 100 then max (preFloorScore fs.pyCount target) (4/5)
       else if fs.pyCount > 50 then max (preFloorScore fs.pyCount target) (7/10)
       else preFloorScore fs.pyCount target,
        fs.pyCount, opsOf target, domsOf target) := by
  unfold analyze_complexity preFloorScore dirBaseScore opsOf domsOf
  rw [hr, he, hf, hd]
  rfl

/-- C5: for an existing directory target the Complexity Analyzer sets
file_count to the Python-file count, starts from base score
`min(0.3 + 0.01·file_count, 1.0)`, adds 0.1 per recognized operation
keyword and 0.05 per recognized domain group, clamps the sum to [0,1],
and finally floors the score at 0.8 when file_count > 100 (at 0.7 when
file_count > 50) without ever lowering it; a 150-file directory whose
target string contains "optimize" therefore scores at least 0.8 with
"optimization" among its operation types. -/
theorem analyze_complexity_directory (fs : FsInfo) (target : String)
    (s : ℚ) (fc : Nat) (ops doms : List String)
    (hr : fs.raises = false) (he : fs.pathExists = true)
    (hf : fs.isFile = false) (hd : fs.isDir = true)
    (heq : analyze_complexity fs target = (s, fc, ops, doms)) :
    fc = fs.pyCount ∧
    s = max (min (dirBaseScore fs.pyCount + (ops.length : ℚ) * (1/10)
        + (doms.length : ℚ) * (1/20)) 1) (scaleFloor fs.pyCount) ∧
    0 ≤ s ∧ s ≤ 1 ∧
    min (dirBaseScore fs.pyCount + (ops.length : ℚ) * (1/10)
        + (doms.length : ℚ) * (1/20)) 1 ≤ s ∧
    (fs.pyCount > 100 → 4/5 ≤ s) ∧
    (fs.pyCount > 50 → 7/10 ≤ s) ∧
    (fs.pyCount = 150 → strContains (lowerString target) "optimize" = true →
      4/5 ≤ s ∧ "optimization" ∈ ops) := by
  rw [analyze_complexity_dir_eq fs target hr he hf hd] at heq
  simp only [Prod.mk.injEq] at heq
  obtain ⟨hs, hfc, hops, hdoms⟩ := heq
  subst hs hfc hops hdoms
  have hP : (if fs.pyCount > 100 then max (preFloorScore fs.pyCount target) (4/5)
      else if fs.pyCount > 50 then max (preFloorScore fs.pyCount target) (7/10)
      else preFloorScore fs.pyCount target)
      = max (preFloorScore fs.pyCount target) (scaleFloor fs.pyCount) :=
    floor_ite_eq_max _ _ (preFloorScore_nonneg _ _)
  rw [hP]
  have hmin0 : (0:ℚ) ≤ preFloorScore fs.pyCount target :=
    preFloorScore_nonneg _ _
  refine ⟨rfl, rfl, hmin0.trans (le_max_left _ _),
    max_le (min_le_right _ _) (scaleFloor_le_one _), le_max_left _ _,
    fun h100 => ?_, fun h50 => ?_, fun h150 hcont => ?_⟩
  · have : scaleFloor fs.pyCount = 4/5 := by simp [scaleFloor, h100]
    calc (4:ℚ)/5 = scaleFloor fs.pyCount := this.symm
      _ ≤ _ := le_max_right _ _
  · have : (7:ℚ)/10 ≤ scaleFloor fs.pyCount := by
      unfold scaleFloor
      by_cases h100 : fs.pyCount > 100
      · rw [if_pos h100]; norm_num
      · rw [if_neg h100, if_pos h50]
    exact this.trans (le_max_right _ _)
  · constructor
    · have h100 : fs.pyCount > 100 := by omega
      have : scaleFloor fs.pyCount = 4/5 := by simp [scaleFloor, h100]
      calc (4:ℚ)/5 = scaleFloor fs.pyCount := this.symm
        _ ≤ _ := le_max_right _ _
    · exact List.mem_map.mpr ⟨("optimize", "optimization"),
        List.mem_filter.mpr ⟨by simp [operation_keywords], hcont⟩, rfl⟩

/-- Concrete filesystem view for the C5 witness: an existing directory
with 150 Python files. -/
def fsDirW : FsInfo := ⟨false, true, false, true, 150⟩

/-- Witness for C5: the 150-file directory target "optimize" scores at
least 0.8 and carries the "optimization" operation type. -/
theorem analyze_complexity_directory_witness :
    4/5 ≤ (analyze_complexity fsDirW "optimize").1 ∧
    "optimization" ∈ (analyze_complexity fsDirW "optimize").2.2.1 :=
  (analyze_complexity_directory fsDirW "optimize"
      (analyze_complexity fsDirW "optimize").1
      (analyze_complexity fsDirW "optimize").2.1
      (analyze_complexity fsDirW "optimize").2.2.1
      (analyze_complexity fsDirW "optimize").2.2.2
      rfl rfl rfl rfl rfl).2.2.2.2.2.2.2 rfl (by decide)

/-- Closed form of `analyze_complexity` when the target does not exist
or its inspection raises: file analysis contributes nothing, but the
keyword scans still run on the target string. -/
lemma analyze_complexity_missing_eq (fs : FsInfo) (target : String)
    (h : fs.raises = true ∨ fs.pathExists = false) :
    analyze_complexity fs target =
      (min (((opsOf target).length : ℚ) * (1/10)
          + ((domsOf target).length : ℚ) * (1/20)) 1,
        0, opsOf target, domsOf target) := by
  unfold analyze_complexity opsOf domsOf
  rcases h with h | h
  · rw [h]; norm_num
  · by_cases hr : fs.raises = true <;> rw [h] <;> simp [hr]

/-- Concrete filesystem view of a non-existent target. -/
def fsMissing : FsInfo := ⟨false, false, false, false, 0⟩

/-- C9 counterexample: the non-existent target "optimize" is scored
0.1, not 0 — keyword bonuses still apply when the path is missing
(file_count does degrade to 0). -/
theorem analyze_complexity_missing_nonzero_score :
    (analyze_complexity fsMissing "optimize").1 = 1/10 ∧
    (analyze_complexity fsMissing "optimize").1 ≠ 0 ∧
    (analyze_complexity fsMissing "optimize").2.1 = 0 := by
  have h := analyze_complexity_missing_eq fsMissing "optimize" (Or.inr rfl)
  have hops : opsOf "optimize" = ["optimization"] := by decide
  have hdoms : domsOf "optimize" = [] := by decide
  rw [h, hops, hdoms]
  norm_num

/-- C9 (amended): for a non-existent or inaccessible target the
Complexity Analyzer degrades gracefully — file_count is 0 and the score
is just the keyword/domain bonuses clamped to [0,1]; it is 0 exactly
when the target string triggers no recognized keyword. -/
theorem analyze_complexity_inaccessible (fs : FsInfo) (target : String)
    (s : ℚ) (fc : Nat) (ops doms : List String)
    (h : fs.raises = true ∨ fs.pathExists = false)
    (heq : analyze_complexity fs target = (s, fc, ops, doms)) :
    fc = 0 ∧
    s = min ((ops.length : ℚ) * (1/10) + (doms.length : ℚ) * (1/20)) 1 ∧
    (ops = [] → doms = [] → s = 0) ∧ 0 ≤ s ∧ s ≤ 1 := by
  rw [analyze_complexity_missing_eq fs target h] at heq
  simp only [Prod.mk.injEq] at heq
  obtain ⟨hs, hfc, hops, hdoms⟩ := heq
  subst hs hfc hops hdoms
  refine ⟨rfl, rfl, fun h1 h2 => by simp [h1, h2], le_min (by positivity)
    (by norm_num), min_le_right _ _⟩

/-- Witness for C9 (amended) at a concrete inaccessible target with no
recognized keywords: score 0, file_count 0. -/
theorem analyze_complexity_inaccessible_witness :
    (analyze_complexity fsMissing "nexus").2.1 = 0 ∧
    (analyze_complexity fsMissing "nexus").1 = 0 := by
  have h := analyze_complexity_inaccessible fsMissing "nexus"
      (analyze_complexity fsMissing "nexus").1
      (analyze_complexity fsMissing "nexus").2.1
      (analyze_complexity fsMissing "nexus").2.2.1
      (analyze_complexity fsMissing "nexus").2.2.2
      (Or.inr rfl) rfl
  have hops : opsOf "nexus" = [] := by decide
  have hdoms : domsOf "nexus" = [] := by decide
  have hops2 : (analyze_complexity fsMissing "nexus").2.2.1 = [] := by
    rw [analyze_complexity_missing_eq fsMissing "nexus" (Or.inr rfl), hops, hdoms]
  have hdoms2 : (analyze_complexity fsMissing "nexus").2.2.2 = [] := by
    rw [analyze_complexity_missing_eq fsMissing "nexus" (Or.inr rfl), hops, hdoms]
  exact ⟨h.1, h.2.2.1 hops2 hdoms2⟩

lemma isEmpty_false_of_ne_nil {α : Type} (l : List α) (h : l ≠ []) :
    l.isEmpty = false := by
  cases l with
  | nil => exact absurd rfl h
  | cons a t => rfl

lemma wavePhases_ne_nil (ctx : WaveContext) : wavePhases ctx ≠ [] := by
  unfold wavePhases
  by_cases h : ctx.strategy = WaveStrategy.adaptive
  · rw [if_pos h]; unfold select_adaptive_phases; simp
  · rw [if_neg h]
    cases hs : ctx.strategy with
    | adaptive => exact absurd hs h
    | progressive => simp [strategy_configs]
    | systematic => simp [strategy_configs]
    | enterprise => simp [strategy_configs]

lemma execute_wave_phases_def (ctx : WaveContext)
    (outcome : WavePhase → PhaseOutcome) :
    (execute_wave ctx outcome).phases =
      (runPhases (strategy_configs ctx.strategy) outcome (wavePhases ctx)).1 := rfl

lemma execute_wave_completed_def (ctx : WaveContext)
    (outcome : WavePhase → PhaseOutcome) :
    (execute_wave ctx outcome).phases_completed =
      (runPhases (strategy_configs ctx.strategy) outcome (wavePhases ctx)).2.1 := rfl

lemma execute_wave_total_def (ctx : WaveContext)
    (outcome : WavePhase → PhaseOutcome) :
    (execute_wave ctx outcome).total_phases = (wavePhases ctx).length := rfl

lemma execute_wave_rate_def (ctx : WaveContext)
    (outcome : WavePhase → PhaseOutcome) :
    (execute_wave ctx outcome).success_rate =
      if (wavePhases ctx).isEmpty then 0
      else ((execute_wave ctx outcome).phases_completed : ℚ) /
        ((wavePhases ctx).length : ℚ) := rfl

lemma execute_wave_status_def (ctx : WaveContext)
    (outcome : WavePhase → PhaseOutcome) :
    (execute_wave ctx outcome).status =
      if (execute_wave ctx outcome).success_rate = 1 then "completed"
      else "partial" := rfl

lemma execute_wave_trace_def (ctx : WaveContext)
    (outcome : WavePhase → PhaseOutcome) :
    (execute_wave ctx outcome).trace =
      (runPhases (strategy_configs ctx.strategy) outcome (wavePhases ctx)).2.2 := rfl

lemma execute_wave_id_def (ctx : WaveContext)
    (outcome : WavePhase → PhaseOutcome) :
    (execute_wave ctx outcome).wave_id = ctx.wave_id := rfl

/-- C3: at the end of every wave pass, success_rate equals exactly
phases_completed divided by total_phases (the phase lists of all four
strategies are non-empty, so the empty guard never fires), and the
persisted wave status is "completed" iff success_rate is 1.0, otherwise
"partial". -/
theorem execute_wave_success_rate (ctx : WaveContext)
    (outcome : WavePhase → PhaseOutcome) :
    (execute_wave ctx outcome).success_rate =
      ((execute_wave ctx outcome).phases_completed : ℚ) /
        ((execute_wave ctx outcome).total_phases : ℚ) ∧
    ((execute_wave ctx outcome).status = "completed" ↔
      (execute_wave ctx outcome).success_rate = 1) ∧
    ((execute_wave ctx outcome).status = "partial" ↔
      ¬ (execute_wave ctx outcome).success_rate = 1) := by
  have hne : (wavePhases ctx).isEmpty = false :=
    isEmpty_false_of_ne_nil _ (wavePhases_ne_nil ctx)
  refine ⟨?_, ?_, ?_⟩
  · rw [execute_wave_rate_def, hne, execute_wave_total_def]
    simp
  · rw [execute_wave_status_def]
    by_cases hr : (execute_wave ctx outcome).success_rate = 1
    · rw [if_pos hr]; exact ⟨fun _ => hr, fun _ => rfl⟩
    · rw [if_neg hr]
      exact ⟨fun hc => absurd hc (by decide), fun h1 => absurd h1 hr⟩
  · rw [execute_wave_status_def]
    by_cases hr : (execute_wave ctx outcome).success_rate = 1
    · rw [if_pos hr]
      exact ⟨fun hc => absurd hc (by decide), fun h1 => absurd hr h1⟩
    · rw [if_neg hr]; exact ⟨fun _ => hr, fun _ => rfl⟩

/-- All-phases-succeed provider behavior (what the source's simulated
providers do, reporting a 35% optimization gain). -/
def allOk : WavePhase → PhaseOutcome := fun _ => PhaseOutcome.completed "35%"

/-- A concrete systematic-strategy context. -/
def sysCtx : WaveContext := ⟨"ws", WaveStrategy.systematic, 1/2, 1, [], []⟩

/-- Witness for C3 at a concrete systematic wave. -/
theorem execute_wave_success_rate_witness :
    (execute_wave sysCtx allOk).status = "completed" ↔
      (execute_wave sysCtx allOk).success_rate = 1 :=
  (execute_wave_success_rate sysCtx allOk).2.1

lemma execute_phase_phase (p : WavePhase) (o : PhaseOutcome) :
    (execute_phase p o).phase = p := by
  cases o <;> rfl

lemma execute_phase_failed_iff (p : WavePhase) (o : PhaseOutcome) :
    ((execute_phase p o).status = "failed") ↔ o = PhaseOutcome.failed := by
  cases o with
  | failed => simp [execute_phase]
  | completed g => simp [execute_phase]

/-- Unfolding of the phase loop at a completing phase. -/
lemma runPhases_cons_completed (cfg : StrategyConfig)
    (outcome : WavePhase → PhaseOutcome) (p : WavePhase)
    (rest : List WavePhase) (g : String)
    (h : outcome p = PhaseOutcome.completed g) :
    runPhases cfg outcome (p :: rest) =
      (execute_phase p (outcome p) :: (runPhases cfg outcome rest).1,
        1 + (runPhases cfg outcome rest).2.1,
        (if doCheckpoint cfg.checkpoint_frequency then [WaveEvent.checkpoint p]
          else [])
          ++ [WaveEvent.phaseStart p, WaveEvent.phaseEnd p "completed"]
          ++ (runPhases cfg outcome rest).2.2) := by
  conv_lhs => rw [runPhases]
  rw [h]
  simp [execute_phase]

/-- Unfolding of the phase loop at a failing phase when rollback is
enabled: the loop breaks. -/
lemma runPhases_cons_failed_rb (cfg : StrategyConfig)
    (outcome : WavePhase → PhaseOutcome) (p : WavePhase)
    (rest : List WavePhase) (h : outcome p = PhaseOutcome.failed)
    (hrb : cfg.rollback_enabled = true) :
    runPhases cfg outcome (p :: rest) =
      ([execute_phase p (outcome p)], 0,
        (if doCheckpoint cfg.checkpoint_frequency then [WaveEvent.checkpoint p]
          else [])
          ++ [WaveEvent.phaseStart p, WaveEvent.phaseEnd p "failed"]) := by
  conv_lhs => rw [runPhases]
  rw [h, hrb]
  simp [execute_phase]

/-- With rollback enabled, the phase loop records exactly the phases up
to and including the first failing one, and counts the preceding
completions. -/
lemma runPhases_halt (cfg : StrategyConfig)
    (outcome : WavePhase → PhaseOutcome) (hrb : cfg.rollback_enabled = true) :
    ∀ (pre : List WavePhase) (p : WavePhase) (post : List WavePhase),
      (∀ q ∈ pre, outcome q ≠ PhaseOutcome.failed) →
      outcome p = PhaseOutcome.failed →
      (runPhases cfg outcome (pre ++ p :: post)).1.map PhaseResult.phase
          = pre ++ [p] ∧
      (runPhases cfg outcome (pre ++ p :: post)).2.1 = pre.length
  | [], p, post, _, hp => by
      rw [List.nil_append, runPhases_cons_failed_rb cfg outcome p post hp hrb]
      simp [execute_phase_phase]
  | q :: pre, p, post, hpre, hp => by
      have hq : outcome q ≠ PhaseOutcome.failed := hpre q (List.mem_cons_self q pre)
      obtain ⟨g, hg⟩ : ∃ g, outcome q = PhaseOutcome.completed g := by
        cases hqq : outcome q with
        | failed => exact absurd hqq hq
        | completed g => exact ⟨g, rfl⟩
      have IH := runPhases_halt cfg outcome hrb pre p post
        (fun x hx => hpre x (List.mem_cons_of_mem q hx)) hp
      rw [List.cons_append, runPhases_cons_completed cfg outcome q _ g hg]
      simp [execute_phase_phase, IH.1, IH.2, Nat.add_comm]

lemma strategy_rollback_enabled (s : WaveStrategy) :
    (strategy_configs s).rollback_enabled = true := by
  cases s <;> rfl

/-- C2 (amended): when a phase of a wave pass fails and the strategy's
rollback_enabled flag is true — which holds for all four configured
strategies — phase iteration halts immediately: exactly the phases up to
and including the failing one are recorded, the earlier ones count as
completed, and the wave is persisted as "partial".  (With the flag
false the loop would continue past the failure; see the
counterexample.) -/
theorem execute_wave_halts_on_failure (ctx : WaveContext)
    (outcome : WavePhase → PhaseOutcome) (pre : List WavePhase)
    (p : WavePhase) (post : List WavePhase)
    (hsplit : wavePhases ctx = pre ++ p :: post)
    (hpre : ∀ q ∈ pre, outcome q ≠ PhaseOutcome.failed)
    (hp : outcome p = PhaseOutcome.failed) :
    (∀ s, (strategy_configs s).rollback_enabled = true) ∧
    (execute_wave ctx outcome).phases.map PhaseResult.phase = pre ++ [p] ∧
    (execute_wave ctx outcome).phases_completed = pre.length ∧
    (execute_wave ctx outcome).status = "partial" := by
  have H := runPhases_halt (strategy_configs ctx.strategy) outcome
    (strategy_rollback_enabled ctx.strategy) pre p post hpre hp
  have hphases : (execute_wave ctx outcome).phases.map PhaseResult.phase
      = pre ++ [p] := by
    rw [execute_wave_phases_def, hsplit]; exact H.1
  have hcount : (execute_wave ctx outcome).phases_completed = pre.length := by
    rw [execute_wave_completed_def, hsplit]; exact H.2
  refine ⟨strategy_rollback_enabled, hphases, hcount, ?_⟩
  have hne : (wavePhases ctx).isEmpty = false :=
    isEmpty_false_of_ne_nil _ (wavePhases_ne_nil ctx)
  have hlen : (wavePhases ctx).length = pre.length + (post.length + 1) := by
    rw [hsplit]; simp [List.length_append]
  have hne1 : ¬ (execute_wave ctx outcome).success_rate = 1 := by
    rw [execute_wave_rate_def, hne, hcount, hlen]
    intro hrate
    simp only [Bool.false_eq_true, if_false] at hrate
    have hden : ((pre.length + (post.length + 1) : Nat) : ℚ) ≠ 0 := by
      have hnz : pre.length + (post.length + 1) ≠ 0 := by omega
      exact_mod_cast hnz
    rw [div_eq_one_iff_eq hden] at hrate
    have : pre.length = pre.length + (post.length + 1) := by exact_mod_cast hrate
    omega
  rw [execute_wave_status_def, if_neg hne1]

/-- The Progressive strategy's configuration with `rollback_enabled`
turned off (reachable by the loop's own config parameter, not by any of
the four built-in strategies). -/
def noRollbackCfg : StrategyConfig :=
  ⟨[WavePhase.review, WavePhase.implementation, WavePhase.validation], some 3,
    "per_iteration", false, false⟩

/-- Provider behavior that fails the review phase and completes all
others. -/
def failReview : WavePhase → PhaseOutcome :=
  fun p => if p = WavePhase.review then PhaseOutcome.failed
    else PhaseOutcome.completed "35%"

/-- C2 counterexample: with `rollback_enabled = false` the phase loop
does not halt at a failure — after the review phase fails, both later
phases still execute and are recorded, contradicting the claim that the
halt-and-mark-partial behavior also holds with the flag false. -/
theorem phase_loop_without_rollback_continues :
    (runPhases noRollbackCfg failReview noRollbackCfg.phases).1.map
        PhaseResult.phase
      = [WavePhase.review, WavePhase.implementation, WavePhase.validation] ∧
    (runPhases noRollbackCfg failReview noRollbackCfg.phases).2.1 = 2 := by
  decide

/-- Provider behavior that fails the implementation phase. -/
def failImplementation : WavePhase → PhaseOutcome :=
  fun p => if p = WavePhase.implementation then PhaseOutcome.failed
    else PhaseOutcome.completed "35%"

/-- Witness for C2 (amended): a systematic wave whose implementation
phase fails stops after review, planning, implementation; two phases
count as completed and the wave is partial. -/
theorem execute_wave_halts_on_failure_witness :
    (execute_wave sysCtx failImplementation).phases.map PhaseResult.phase
      = [WavePhase.review, WavePhase.planning, WavePhase.implementation] ∧
    (execute_wave sysCtx failImplementation).phases_completed = 2 ∧
    (execute_wave sysCtx failImplementation).status = "partial" := by
  have h := execute_wave_halts_on_failure sysCtx failImplementation
    [WavePhase.review, WavePhase.planning] WavePhase.implementation
    [WavePhase.validation, WavePhase.optimization] rfl (by decide) (by decide)
  exact ⟨h.2.1, h.2.2.1, h.2.2.2⟩

/-- Is this event a `wave_checkpoints` insert? -/
def isCkptEvent : WaveEvent → Bool
  | .checkpoint _ => true
  | _ => false

/-- Is this event a `wave_phases` start insert? -/
def isStartEvent : WaveEvent → Bool
  | .phaseStart _ => true
  | _ => false

/-- Every checkpoint event is immediately followed by the start record
of the same phase: checkpoints are written just before the phase they
name begins. -/
def ckptImmediatelyBeforeStart : List WaveEvent → Bool
  | [] => true
  | WaveEvent.checkpoint p :: rest =>
      (match rest with
        | WaveEvent.phaseStart q :: _ => p == q
        | _ => false) && ckptImmediatelyBeforeStart rest
  | _ :: rest => ckptImmediatelyBeforeStart rest

lemma ckptPred_start (p : WavePhase) (l : List WaveEvent) :
    ckptImmediatelyBeforeStart (WaveEvent.phaseStart p :: l)
      = ckptImmediatelyBeforeStart l := rfl

lemma ckptPred_end (p : WavePhase) (s : String) (l : List WaveEvent) :
    ckptImmediatelyBeforeStart (WaveEvent.phaseEnd p s :: l)
      = ckptImmediatelyBeforeStart l := rfl

lemma ckptPred_ckpt_start (p q : WavePhase) (l : List WaveEvent) :
    ckptImmediatelyBeforeStart
        (WaveEvent.checkpoint p :: WaveEvent.phaseStart q :: l)
      = ((p == q) && ckptImmediatelyBeforeStart (WaveEvent.phaseStart q :: l)) :=
  rfl

/-- Unfolding of the phase loop at a failing phase when rollback is
disabled: the loop continues. -/
lemma runPhases_cons_failed_norb (cfg : StrategyConfig)
    (outcome : WavePhase → PhaseOutcome) (p : WavePhase)
    (rest : List WavePhase) (h : outcome p = PhaseOutcome.failed)
    (hrb : cfg.rollback_enabled = false) :
    runPhases cfg outcome (p :: rest) =
      (execute_phase p (outcome p) :: (runPhases cfg outcome rest).1,
        (runPhases cfg outcome rest).2.1,
        (if doCheckpoint cfg.checkpoint_frequency then [WaveEvent.checkpoint p]
          else [])
          ++ [WaveEvent.phaseStart p, WaveEvent.phaseEnd p "failed"]
          ++ (runPhases cfg outcome rest).2.2) := by
  conv_lhs => rw [runPhases]
  rw [h, hrb]
  simp [execute_phase]

/-- Along any phase list, the trace holds one checkpoint per started
phase when the frequency enables checkpoints and none otherwise, and
each checkpoint immediately precedes its phase's start record. -/
lemma runPhases_trace_spec (cfg : StrategyConfig)
    (outcome : WavePhase → PhaseOutcome) :
    ∀ ps : List WavePhase,
      ((runPhases cfg outcome ps).2.2.countP isCkptEvent =
        if doCheckpoint cfg.checkpoint_frequency then
          (runPhases cfg outcome ps).2.2.countP isStartEvent else 0) ∧
      ckptImmediatelyBeforeStart (runPhases cfg outcome ps).2.2 = true
  | [] => by
      constructor
      · simp [runPhases]
      · rfl
  | p :: rest => by
      have IH := runPhases_trace_spec cfg outcome rest
      have step : ∀ tail : List WaveEvent, ∀ s : String,
          ckptImmediatelyBeforeStart tail = true →
          tail.countP isCkptEvent =
            (if doCheckpoint cfg.checkpoint_frequency then
              tail.countP isStartEvent else 0) →
          (((if doCheckpoint cfg.checkpoint_frequency then
              [WaveEvent.checkpoint p] else [])
            ++ [WaveEvent.phaseStart p, WaveEvent.phaseEnd p s]
            ++ tail).countP isCkptEvent =
            if doCheckpoint cfg.checkpoint_frequency then
              ((if doCheckpoint cfg.checkpoint_frequency then
                [WaveEvent.checkpoint p] else [])
                ++ [WaveEvent.phaseStart p, WaveEvent.phaseEnd p s]
                ++ tail).countP isStartEvent else 0) ∧
          ckptImmediatelyBeforeStart
            ((if doCheckpoint cfg.checkpoint_frequency then
              [WaveEvent.checkpoint p] else [])
              ++ [WaveEvent.phaseStart p, WaveEvent.phaseEnd p s]
              ++ tail) = true := by
        intro tail s htail hcount
        by_cases hdc : doCheckpoint cfg.checkpoint_frequency = true
        · rw [if_pos hdc] at hcount ⊢
          rw [if_pos hdc]
          constructor
          · simp [List.countP_append, isCkptEvent, isStartEvent,
              List.countP_cons, hcount]
          · simp only [List.cons_append, List.nil_append, List.singleton_append]
            rw [ckptPred_ckpt_start]
            simp [ckptPred_start, ckptPred_end, htail]
        · rw [if_neg hdc] at hcount ⊢
          rw [if_neg hdc]
          constructor
          · simp [List.countP_append, isCkptEvent, isStartEvent,
              List.countP_cons, hcount]
          · simp [ckptPred_start, ckptPred_end, htail]
      cases ho : outcome p with
      | completed g =>
          rw [runPhases_cons_completed cfg outcome p rest g ho]
          exact step (runPhases cfg outcome rest).2.2 "completed" IH.2 IH.1
      | failed =>
          cases hrb : cfg.rollback_enabled with
          | true =>
              rw [runPhases_cons_failed_rb cfg outcome p rest ho hrb]
              have hc : List.countP isCkptEvent ([] : List WaveEvent) =
                  (if doCheckpoint cfg.checkpoint_frequency then
                    List.countP isStartEvent ([] : List WaveEvent) else 0) := by
                cases hdc : doCheckpoint cfg.checkpoint_frequency <;> simp
              have h2 := step [] "failed" rfl hc
              exact ⟨by simpa using h2.1, by simpa using h2.2⟩
          | false =>
              rw [runPhases_cons_failed_norb cfg outcome p rest ho hrb]
              exact step (runPhases cfg outcome rest).2.2 "failed" IH.2 IH.1

/-- C6 (amended): per_phase and continuous checkpoint frequencies create
exactly one checkpoint per started phase, and each checkpoint is written
immediately BEFORE its phase's start record (for a phase that has not
yet started); the adaptive and per_iteration frequencies create no
checkpoints at all in `execute_wave`. -/
theorem execute_wave_checkpoint_policy (ctx : WaveContext)
    (outcome : WavePhase → PhaseOutcome) :
    ((execute_wave ctx outcome).trace.countP isCkptEvent =
      if doCheckpoint (strategy_configs ctx.strategy).checkpoint_frequency then
        (execute_wave ctx outcome).trace.countP isStartEvent else 0) ∧
    ckptImmediatelyBeforeStart (execute_wave ctx outcome).trace = true ∧
    doCheckpoint "per_phase" = true ∧ doCheckpoint "continuous" = true ∧
    doCheckpoint "adaptive" = false ∧ doCheckpoint "per_iteration" = false := by
  have H := runPhases_trace_spec (strategy_configs ctx.strategy) outcome
    (wavePhases ctx)
  rw [execute_wave_trace_def]
  exact ⟨H.1, H.2, by decide, by decide, by decide, by decide⟩

/-- A concrete adaptive-strategy context whose planner selects all five
phases. -/
def adaptiveCtx : WaveContext :=
  ⟨"wa", WaveStrategy.adaptive, 3/4, 10, ["optimization"], []⟩

lemma adaptiveCtx_phases :
    wavePhases adaptiveCtx =
      [WavePhase.review, WavePhase.planning, WavePhase.implementation,
       WavePhase.validation, WavePhase.optimization] := by
  norm_num [wavePhases, adaptiveCtx, select_adaptive_phases]

/-- C6 counterexample: an adaptive wave executes five phases but creates
no checkpoint at all (the 'adaptive' frequency is not in the
`['per_phase', 'continuous']` guard), and in a systematic wave the first
checkpoint is written before the review phase's start record — for a
phase that has not yet started. -/
theorem adaptive_wave_creates_no_checkpoints :
    (execute_wave adaptiveCtx allOk).trace.countP isCkptEvent = 0 ∧
    (execute_wave adaptiveCtx allOk).trace.countP isStartEvent = 5 ∧
    (execute_wave sysCtx allOk).trace.take 2 =
      [WaveEvent.checkpoint WavePhase.review,
       WaveEvent.phaseStart WavePhase.review] := by
  refine ⟨?_, ?_, by decide⟩ <;>
    · rw [execute_wave_trace_def, adaptiveCtx_phases]
      decide

/-- Witness for C6 (amended) at a concrete systematic wave: checkpoint
count equals started-phase count under the per_phase frequency. -/
theorem execute_wave_checkpoint_policy_witness :
    (execute_wave sysCtx allOk).trace.countP isCkptEvent =
      (execute_wave sysCtx allOk).trace.countP isStartEvent := by
  have h := (execute_wave_checkpoint_policy sysCtx allOk).1
  simpa [sysCtx, strategy_configs, doCheckpoint] using h

/-- The wave-id suffix accumulated from pass index `i` over `m`
passes: `_iter{i+1}_iter{i+2}…`. -/
def iterSuffixFrom (i : Nat) : Nat → String
  | 0 => ""
  | m + 1 => "_iter" ++ toString (i + 1) ++ iterSuffixFrom (i + 1) m

/-- The cumulative wave-id suffix after `n` passes of the progressive
loop: `_iter1_iter2…_iter{n}`. -/
def iterSuffix (n : Nat) : String := iterSuffixFrom 0 n

lemma iterSuffixFrom_succ (i m : Nat) :
    iterSuffixFrom i (m + 1)
      = ("_iter" ++ toString (i + 1)) ++ iterSuffixFrom (i + 1) m := rfl

lemma iterSuffixFrom_one (i : Nat) :
    iterSuffixFrom i 1 = "_iter" ++ toString (i + 1) := by
  rw [iterSuffixFrom_succ]
  rw [show iterSuffixFrom (i + 1) 0 = "" from rfl, String.append_empty]

lemma nextIterCtx_strategy (ctx : WaveContext) (i : Nat) :
    (nextIterCtx ctx i).strategy = ctx.strategy := rfl

lemma nextIterCtx_id_one (ctx : WaveContext) (i : Nat) :
    (nextIterCtx ctx i).wave_id = ctx.wave_id ++ iterSuffixFrom i 1 := by
  rw [iterSuffixFrom_one]
  show ctx.wave_id ++ "_iter" ++ toString (i + 1) = _
  rw [String.append_assoc]

lemma nextIterCtx_id_append (ctx : WaveContext) (i : Nat) (S : String) :
    (nextIterCtx ctx i).wave_id ++ S
      = ctx.wave_id ++ (("_iter" ++ toString (i + 1)) ++ S) := by
  show ctx.wave_id ++ "_iter" ++ toString (i + 1) ++ S = _
  simp [String.append_assoc]

lemma progressiveLoop_cons_of_converged (outcome : Nat → WavePhase → PhaseOutcome)
    (ctx : WaveContext) (i rem : Nat)
    (hc : converged (execute_wave (nextIterCtx ctx i) (outcome i))) :
    progressiveLoop outcome ctx i (rem + 1)
      = [execute_wave (nextIterCtx ctx i) (outcome i)] := by
  conv_lhs => rw [progressiveLoop]
  rw [if_pos hc]

lemma progressiveLoop_cons_of_not_converged
    (outcome : Nat → WavePhase → PhaseOutcome) (ctx : WaveContext) (i rem : Nat)
    (hc : ¬ converged (execute_wave (nextIterCtx ctx i) (outcome i))) :
    progressiveLoop outcome ctx i (rem + 1)
      = execute_wave (nextIterCtx ctx i) (outcome i)
        :: progressiveLoop outcome (nextIterCtx ctx i) (i + 1) rem := by
  conv_lhs => rw [progressiveLoop]
  rw [if_neg hc]

lemma progressiveLoop_get_zero (outcome : Nat → WavePhase → PhaseOutcome)
    (ctx : WaveContext) (i rem : Nat) :
    (progressiveLoop outcome ctx i (rem + 1)).get? 0
      = some (execute_wave (nextIterCtx ctx i) (outcome i)) := by
  by_cases hc : converged (execute_wave (nextIterCtx ctx i) (outcome i))
  · rw [progressiveLoop_cons_of_converged outcome ctx i rem hc]; rfl
  · rw [progressiveLoop_cons_of_not_converged outcome ctx i rem hc]; rfl

/-- Behavior of the progressive iteration loop: at most `rem` passes,
pass `k` carries the cumulative id suffix, every non-final pass failed
the convergence test, and an early stop means the final pass passed
it. -/
lemma progressiveLoop_spec (outcome : Nat → WavePhase → PhaseOutcome) :
    ∀ (rem i : Nat) (ctx : WaveContext),
      (progressiveLoop outcome ctx i rem).length ≤ rem ∧
      (∀ k r, (progressiveLoop outcome ctx i rem).get? k = some r →
        r.wave_id = ctx.wave_id ++ iterSuffixFrom i (k + 1)) ∧
      (∀ k r, (progressiveLoop outcome ctx i rem).get? k = some r →
        k + 1 < (progressiveLoop outcome ctx i rem).length → ¬ converged r) ∧
      ((progressiveLoop outcome ctx i rem).length < rem →
        ∃ r, (progressiveLoop outcome ctx i rem).getLast? = some r ∧ converged r)
  | 0, i, ctx => by
      refine ⟨Nat.le_refl 0, ?_, ?_, ?_⟩
      · intro k r hk; simp [progressiveLoop] at hk
      · intro k r hk; simp [progressiveLoop] at hk
      · intro h; simp [progressiveLoop] at h
  | rem + 1, i, ctx => by
      have IH := progressiveLoop_spec outcome rem (i + 1) (nextIterCtx ctx i)
      by_cases hc : converged (execute_wave (nextIterCtx ctx i) (outcome i))
      · rw [progressiveLoop_cons_of_converged outcome ctx i rem hc]
        refine ⟨by simp, ?_, ?_, ?_⟩
        · intro k r hk
          cases k with
          | zero =>
              have : execute_wave (nextIterCtx ctx i) (outcome i) = r := by
                simpa using hk
              rw [← this, execute_wave_id_def, nextIterCtx_id_one]
          | succ k => simp at hk
        · intro k r _ hlen
          simp at hlen
        · intro _
          exact ⟨execute_wave (nextIterCtx ctx i) (outcome i), rfl, hc⟩
      · rw [progressiveLoop_cons_of_not_converged outcome ctx i rem hc]
        refine ⟨?_, ?_, ?_, ?_⟩
        · simpa using Nat.succ_le_succ IH.1
        · intro k r hk
          cases k with
          | zero =>
              have : execute_wave (nextIterCtx ctx i) (outcome i) = r := by
                simpa using hk
              rw [← this, execute_wave_id_def, nextIterCtx_id_one]
          | succ k =>
              have hk2 : (progressiveLoop outcome (nextIterCtx ctx i) (i + 1)
                  rem).get? k = some r := by simpa using hk
              rw [IH.2.1 k r hk2, nextIterCtx_id_append, ← iterSuffixFrom_succ]
        · intro k r hk hlen
          cases k with
          | zero =>
              have : execute_wave (nextIterCtx ctx i) (outcome i) = r := by
                simpa using hk
              rw [← this]; exact hc
          | succ k =>
              have hk2 : (progressiveLoop outcome (nextIterCtx ctx i) (i + 1)
                  rem).get? k = some r := by simpa using hk
              have hlen2 : k + 1 <
                  (progressiveLoop outcome (nextIterCtx ctx i) (i + 1)
                    rem).length := by
                simp at hlen; omega
              exact IH.2.2.1 k r hk2 hlen2
        · intro hlen
          have hlen2 : (progressiveLoop outcome (nextIterCtx ctx i) (i + 1)
              rem).length < rem := by simp at hlen; omega
          obtain ⟨r, hr, hcv⟩ := IH.2.2.2 hlen2
          cases ht : progressiveLoop outcome (nextIterCtx ctx i) (i + 1) rem with
          | nil => rw [ht] at hr; exact absurd hr (by simp)
          | cons b l =>
              refine ⟨r, ?_, hcv⟩
              rw [ht] at hr
              rw [List.getLast?_cons_cons]
              exact hr

/-- C7 (amended): the Progressive Iteration Controller runs up to
`iterations` (default 3) wave passes and returns their results as an
ordered list; the wave id is extended in place each pass, so the
(k+1)-th pass carries the cumulative id "{base}_iter1_iter2…_iter{k+1}"
(distinct per pass) rather than "{base}_iter{k+1}"; iteration stops
early if and only if a pass has success_rate 1.0 and its
performance-gain reading — the recorded optimization gain, or the "0%"
sentinel when the optimization phase is absent or failed — equals
"0%". -/
theorem run_progressive_waves_behavior (ctx : WaveContext)
    (outcome : Nat → WavePhase → PhaseOutcome) (iterations : Nat) :
    default_iterations = 3 ∧
    (run_progressive_waves ctx outcome iterations).length ≤ iterations ∧
    (∀ k r, (run_progressive_waves ctx outcome iterations).get? k = some r →
      r.wave_id = ctx.wave_id ++ iterSuffix (k + 1)) ∧
    (∀ k r, (run_progressive_waves ctx outcome iterations).get? k = some r →
      k + 1 < (run_progressive_waves ctx outcome iterations).length →
      ¬ (r.success_rate = 1 ∧ perfGain r = "0%")) ∧
    ((run_progressive_waves ctx outcome iterations).length < iterations →
      ∃ r, (run_progressive_waves ctx outcome iterations).getLast? = some r ∧
        r.success_rate = 1 ∧ perfGain r = "0%") := by
  have H := progressiveLoop_spec outcome iterations 0 ctx
  exact ⟨rfl, H.1, H.2.1, H.2.2.1, H.2.2.2⟩

/-- A concrete progressive base context. -/
def progCtx : WaveContext := ⟨"base", WaveStrategy.progressive, 1/2, 1, [], []⟩

/-- Provider behavior that fails validation in pass 0 and completes
everything afterwards. -/
def progOut : Nat → WavePhase → PhaseOutcome :=
  fun i p => if i = 0 ∧ p = WavePhase.validation then PhaseOutcome.failed
    else PhaseOutcome.completed "35%"

lemma progPass0_phases :
    wavePhases (nextIterCtx progCtx 0) =
      [WavePhase.review, WavePhase.implementation, WavePhase.validation] := by
  decide

lemma progPass0_not_converged :
    ¬ converged (execute_wave (nextIterCtx progCtx 0) (progOut 0)) := by
  intro hcv
  have h1 := hcv.1
  have hc2 : (execute_wave (nextIterCtx progCtx 0) (progOut 0)).phases_completed
      = 2 := by decide
  rw [execute_wave_rate_def, progPass0_phases, hc2] at h1
  norm_num at h1

/-- C7 counterexample: in a concrete progressive run, the second pass's
recorded wave id is "base_iter1_iter2" — the suffixes accumulate — not
the claimed "base_iter2". -/
theorem progressive_wave_id_is_cumulative :
    ((run_progressive_waves progCtx progOut 3).get? 1).map WaveResult.wave_id
      = some "base_iter1_iter2" ∧
    ¬ ("base_iter1_iter2" : String) = "base_iter2" := by
  refine ⟨?_, by decide⟩
  have h0 := progressiveLoop_cons_of_not_converged progOut progCtx 0 2
    progPass0_not_converged
  show ((progressiveLoop progOut progCtx 0 3).get? 1).map WaveResult.wave_id = _
  rw [h0, List.get?_cons_succ, progressiveLoop_get_zero]
  decide

/-- Witness for C7 (amended): the first pass of the concrete run carries
the base id followed by the one-pass suffix. -/
theorem run_progressive_waves_behavior_witness :
    ((run_progressive_waves progCtx progOut 3).get? 0).map WaveResult.wave_id
      = some (progCtx.wave_id ++ iterSuffix 1) := by
  have h0 : (run_progressive_waves progCtx progOut 3).get? 0 =
      some (execute_wave (nextIterCtx progCtx 0) (progOut 0)) :=
    progressiveLoop_get_zero progOut progCtx 0 2
  have hid := (run_progressive_waves_behavior progCtx progOut 3).2.2.1 0 _ h0
  rw [h0, Option.map_some', hid]

/-- Every recorded phase result belongs to the executed phase list. -/
lemma runPhases_phases_subset (cfg : StrategyConfig)
    (outcome : WavePhase → PhaseOutcome) :
    ∀ (ps : List WavePhase) (pr : PhaseResult),
      pr ∈ (runPhases cfg outcome ps).1 → pr.phase ∈ ps
  | [], pr, h => by simp [runPhases] at h
  | p :: rest, pr, h => by
      cases ho : outcome p with
      | completed g =>
          rw [runPhases_cons_completed cfg outcome p rest g ho] at h
          rcases List.mem_cons.mp h with h1 | h1
          · rw [h1, execute_phase_phase]; exact List.mem_cons_self p rest
          · exact List.mem_cons_of_mem p
              (runPhases_phases_subset cfg outcome rest pr h1)
      | failed =>
          cases hrb : cfg.rollback_enabled with
          | true =>
              rw [runPhases_cons_failed_rb cfg outcome p rest ho hrb] at h
              rcases List.mem_singleton.mp h with h1
              rw [h1, execute_phase_phase]; exact List.mem_cons_self p rest
          | false =>
              rw [runPhases_cons_failed_norb cfg outcome p rest ho hrb] at h
              rcases List.mem_cons.mp h with h1 | h1
              · rw [h1, execute_phase_phase]; exact List.mem_cons_self p rest
              · exact List.mem_cons_of_mem p
                  (runPhases_phases_subset cfg outcome rest pr h1)

/-- When the executed phase list has no optimization phase, the
convergence check's chained `.get` reads fall through to the "0%"
default. -/
lemma perfGain_eq_default (ctx : WaveContext)
    (outcome : WavePhase → PhaseOutcome)
    (h : WavePhase.optimization ∉ wavePhases ctx) :
    perfGain (execute_wave ctx outcome) = "0%" := by
  unfold perfGain
  have hfind : (execute_wave ctx outcome).phases.find?
      (fun pr => pr.phase = WavePhase.optimization) = none := by
    apply List.find?_eq_none.mpr
    intro pr hpr
    simp only [decide_eq_true_eq]
    intro heq
    apply h
    rw [← heq]
    exact runPhases_phases_subset _ _ _ pr
      (by rwa [← execute_wave_phases_def])
  rw [hfind]

lemma wavePhases_progressive (ctx : WaveContext)
    (h : ctx.strategy = WaveStrategy.progressive) :
    wavePhases ctx = [WavePhase.review, WavePhase.implementation,
      WavePhase.validation] := by
  unfold wavePhases
  rw [h]
  simp [strategy_configs]

/-- Every pass of a progressive-strategy iteration reads the missing
gain metric as "0%". -/
lemma progressiveLoop_perfGain (outcome : Nat → WavePhase → PhaseOutcome) :
    ∀ (rem i : Nat) (ctx : WaveContext),
      ctx.strategy = WaveStrategy.progressive →
      ∀ r ∈ progressiveLoop outcome ctx i rem, perfGain r = "0%"
  | 0, i, ctx, _, r, hr => by simp [progressiveLoop] at hr
  | rem + 1, i, ctx, h, r, hr => by
      have hstrat : (nextIterCtx ctx i).strategy = WaveStrategy.progressive := h
      have hno : WavePhase.optimization ∉ wavePhases (nextIterCtx ctx i) := by
        rw [wavePhases_progressive _ hstrat]; decide
      have hpg : perfGain (execute_wave (nextIterCtx ctx i) (outcome i)) = "0%" :=
        perfGain_eq_default _ _ hno
      by_cases hc : converged (execute_wave (nextIterCtx ctx i) (outcome i))
      · rw [progressiveLoop_cons_of_converged outcome ctx i rem hc] at hr
        rcases List.mem_singleton.mp hr with h1
        rw [h1]; exact hpg
      · rw [progressiveLoop_cons_of_not_converged outcome ctx i rem hc] at hr
        rcases List.mem_cons.mp hr with h1 | h1
        · rw [h1]; exact hpg
        · exact progressiveLoop_perfGain outcome rem (i + 1) (nextIterCtx ctx i)
            hstrat r h1

/-- A converged pass is always the last entry of the loop's result
list. -/
lemma progressiveLoop_stops_at_converged
    (outcome : Nat → WavePhase → PhaseOutcome) :
    ∀ (rem i : Nat) (ctx : WaveContext) (k : Nat) (r : WaveResult),
      (progressiveLoop outcome ctx i rem).get? k = some r → converged r →
      (progressiveLoop outcome ctx i rem).length = k + 1
  | 0, i, ctx, k, r, hk, _ => by simp [progressiveLoop] at hk
  | rem + 1, i, ctx, k, r, hk, hcv => by
      by_cases hc : converged (execute_wave (nextIterCtx ctx i) (outcome i))
      · rw [progressiveLoop_cons_of_converged outcome ctx i rem hc] at hk ⊢
        cases k with
        | zero => rfl
        | succ k => simp at hk
      · rw [progressiveLoop_cons_of_not_converged outcome ctx i rem hc] at hk ⊢
        cases k with
        | zero =>
            have : execute_wave (nextIterCtx ctx i) (outcome i) = r := by
              simpa using hk
            rw [this] at hc
            exact absurd hcv hc
        | succ k =>
            have hk2 : (progressiveLoop outcome (nextIterCtx ctx i) (i + 1)
                rem).get? k = some r := by simpa using hk
            have := progressiveLoop_stops_at_converged outcome rem (i + 1)
              (nextIterCtx ctx i) k r hk2 hcv
            simp [this]

/-- C10: when the executed phase list of a wave pass has no OPTIMIZATION
phase — as with the Progressive strategy's configured list [REVIEW,
IMPLEMENTATION, VALIDATION] — the convergence check reads the missing
performance-gain metric as the "0%" sentinel, so any pass whose
success_rate is 1.0 is the final pass: the controller stops there
regardless of how many iterations were configured. -/
theorem progressive_stops_at_first_full_success (ctx : WaveContext)
    (outcome : Nat → WavePhase → PhaseOutcome) (iterations k : Nat)
    (r : WaveResult) (hstrat : ctx.strategy = WaveStrategy.progressive)
    (hk : (run_progressive_waves ctx outcome iterations).get? k = some r)
    (hr : r.success_rate = 1) :
    perfGain r = "0%" ∧
    (run_progressive_waves ctx outcome iterations).length = k + 1 := by
  have hmem : r ∈ run_progressive_waves ctx outcome iterations :=
    List.get?_mem hk
  have hpg : perfGain r = "0%" :=
    progressiveLoop_perfGain outcome iterations 0 ctx hstrat r hmem
  exact ⟨hpg, progressiveLoop_stops_at_converged outcome iterations 0 ctx k r hk
    ⟨hr, hpg⟩⟩

/-- A concrete progressive context for the C10 witness. -/
def progCtxW : WaveContext := ⟨"b", WaveStrategy.progressive, 1/2, 1, [], []⟩

/-- Provider behavior indexed by pass that always completes. -/
def allOkIter : Nat → WavePhase → PhaseOutcome :=
  fun _ _ => PhaseOutcome.completed "35%"

/-- Witness for C10: with every phase completing, the progressive
controller configured for 3 iterations stops after the very first
pass. -/
theorem progressive_stops_at_first_full_success_witness :
    (run_progressive_waves progCtxW allOkIter 3).length = 0 + 1 := by
  have h0 : (run_progressive_waves progCtxW allOkIter 3).get? 0 =
      some (execute_wave (nextIterCtx progCtxW 0) (allOkIter 0)) :=
    progressiveLoop_get_zero allOkIter progCtxW 0 2
  have hph : wavePhases (nextIterCtx progCtxW 0) =
      [WavePhase.review, WavePhase.implementation, WavePhase.validation] := by
    decide
  have hc3 : (execute_wave (nextIterCtx progCtxW 0)
      (allOkIter 0)).phases_completed = 3 := by decide
  have hrate : (execute_wave (nextIterCtx progCtxW 0)
      (allOkIter 0)).success_rate = 1 := by
    rw [execute_wave_rate_def, hph, hc3]
    norm_num
  exact (progressive_stops_at_first_full_success progCtxW allOkIter 3 0 _ rfl
    h0 hrate).2

lemma bridge_overall_def (ctx : WaveContext) (score : String → ℚ) :
    (execute_wave_with_agents ctx score).overall_score =
      ((wavePhases ctx).map (phaseAvg score)).sum /
        (((wavePhases ctx).length : ℚ)) := rfl

lemma bridge_status_def (ctx : WaveContext) (score : String → ℚ) :
    (execute_wave_with_agents ctx score).status =
      if (execute_wave_with_agents ctx score).overall_score > 7/10 then
        "success"
      else "needs_improvement" := rfl

lemma bridge_status_iff (ctx : WaveContext) (score : String → ℚ) :
    ((execute_wave_with_agents ctx score).status = "success" ↔
      (execute_wave_with_agents ctx score).overall_score > 7/10) := by
  rw [bridge_status_def]
  by_cases h : (execute_wave_with_agents ctx score).overall_score > 7/10
  · rw [if_pos h]; exact ⟨fun _ => h, fun _ => rfl⟩
  · rw [if_neg h]
    exact ⟨fun hc => absurd hc (by decide), fun h1 => absurd h1 h⟩

lemma bridge_status_cases (ctx : WaveContext) (score : String → ℚ) :
    (execute_wave_with_agents ctx score).status = "success" ∨
      (execute_wave_with_agents ctx score).status = "needs_improvement" := by
  rw [bridge_status_def]
  by_cases h : (execute_wave_with_agents ctx score).overall_score > 7/10
  · rw [if_pos h]; exact Or.inl rfl
  · rw [if_neg h]; exact Or.inr rfl

lemma length_filter_split {α : Type} (p : α → Prop) [DecidablePred p] :
    ∀ l : List α,
      (l.filter (fun a => p a)).length + (l.filter (fun a => ¬ p a)).length
        = l.length
  | [] => rfl
  | a :: l => by
      have IH := length_filter_split p l
      rw [List.filter_cons, List.filter_cons]
      by_cases h : p a
      · rw [if_pos (by simp [h]), if_neg (by simp [h])]
        simp only [List.length_cons]
        omega
      · rw [if_neg (by simp [h]), if_pos (by simp [h])]
        simp only [List.length_cons]
        omega

lemma run_enterprise_results_def (targets : List (String × FsInfo))
    (agentScore : Nat → String → ℚ) :
    (run_enterprise_wave targets agentScore).1
      = enterpriseResults targets agentScore := rfl

lemma run_enterprise_successful_def (targets : List (String × FsInfo))
    (agentScore : Nat → String → ℚ) :
    (run_enterprise_wave targets agentScore).2.successful
      = ((enterpriseResults targets agentScore).filter
          (fun r => r.status = "success")).length := rfl

lemma run_enterprise_failed_def (targets : List (String × FsInfo))
    (agentScore : Nat → String → ℚ) :
    (run_enterprise_wave targets agentScore).2.failed
      = ((enterpriseResults targets agentScore).filter
          (fun r => ¬ r.status = "success")).length := rfl

lemma run_enterprise_avg_def (targets : List (String × FsInfo))
    (agentScore : Nat → String → ℚ) :
    (run_enterprise_wave targets agentScore).2.average_score
      = ((enterpriseResults targets agentScore).map
          BridgeResult.overall_score).sum /
        (((enterpriseResults targets agentScore).length : ℚ)) := rfl

lemma enterpriseResults_length (targets : List (String × FsInfo))
    (agentScore : Nat → String → ℚ) :
    (enterpriseResults targets agentScore).length = targets.length := by
  unfold enterpriseResults
  rw [List.length_map, List.enum_length]

lemma enterpriseResults_mem (targets : List (String × FsInfo))
    (agentScore : Nat → String → ℚ) (r : BridgeResult)
    (hr : r ∈ enterpriseResults targets agentScore) :
    ∃ ctx score, r = execute_wave_with_agents ctx score := by
  obtain ⟨ta, _, heq⟩ := List.mem_map.mp hr
  exact ⟨_, _, heq.symm⟩

/-- C8 (amended): the Enterprise Fan-out summary reports `successful` as
the count of waves whose bridge status is "success" — equivalently,
whose overall_score exceeds 0.7; no wave in this path ever carries the
status "completed" — `failed` as the rest (successful + failed =
total_targets), and `average_score` as the arithmetic mean of every
wave's overall_score across all targets, failed ones included. -/
theorem run_enterprise_wave_summary (targets : List (String × FsInfo))
    (agentScore : Nat → String → ℚ) (h : targets ≠ []) :
    (run_enterprise_wave targets agentScore).2.total_targets = targets.length ∧
    (run_enterprise_wave targets agentScore).1.length = targets.length ∧
    (run_enterprise_wave targets agentScore).2.successful =
      ((run_enterprise_wave targets agentScore).1.filter
        (fun r => r.status = "success")).length ∧
    (run_enterprise_wave targets agentScore).2.successful =
      ((run_enterprise_wave targets agentScore).1.filter
        (fun r => r.overall_score > 7/10)).length ∧
    (∀ r ∈ (run_enterprise_wave targets agentScore).1,
      (r.status = "success" ↔ r.overall_score > 7/10) ∧
      ¬ r.status = "completed") ∧
    (run_enterprise_wave targets agentScore).2.successful +
      (run_enterprise_wave targets agentScore).2.failed = targets.length ∧
    (run_enterprise_wave targets agentScore).2.average_score *
        (targets.length : ℚ) =
      ((run_enterprise_wave targets agentScore).1.map
        BridgeResult.overall_score).sum := by
  have hmemprop : ∀ r ∈ enterpriseResults targets agentScore,
      (r.status = "success" ↔ r.overall_score > 7/10) ∧
      ¬ r.status = "completed" := by
    intro r hr
    obtain ⟨ctx, score, rfl⟩ := enterpriseResults_mem targets agentScore r hr
    refine ⟨bridge_status_iff ctx score, ?_⟩
    rcases bridge_status_cases ctx score with hs | hs <;> rw [hs] <;> decide
  refine ⟨rfl, ?_, rfl, ?_, ?_, ?_, ?_⟩
  · rw [run_enterprise_results_def, enterpriseResults_length]
  · rw [run_enterprise_successful_def, run_enterprise_results_def]
    congr 1
    apply List.filter_congr
    intro r hr
    rw [decide_eq_decide]
    exact (hmemprop r hr).1
  · rw [run_enterprise_results_def]
    exact hmemprop
  · rw [run_enterprise_successful_def, run_enterprise_failed_def,
      ← enterpriseResults_length targets agentScore]
    exact length_filter_split (fun r : BridgeResult => r.status = "success") _
  · rw [run_enterprise_avg_def, run_enterprise_results_def,
      ← enterpriseResults_length targets agentScore]
    apply div_mul_cancel₀
    rw [Nat.cast_ne_zero, enterpriseResults_length]
    intro h0
    exact h (List.length_eq_zero.mp h0)

/-- Concrete filesystem view for the C8 scenarios: a directory with 3
Python files. -/
def fsX : FsInfo := ⟨false, true, false, true, 3⟩

/-- Concrete fan-out input: one target. -/
def entIn : List (String × FsInfo) := [("x", fsX)]

/-- Agent scores all fixed at 0.85. -/
def scoreX : String → ℚ := fun _ => 17/20

/-- Per-target score provider for the fan-out. -/
def entScore : Nat → String → ℚ := fun _ => scoreX

/-- The context the fan-out builds for the single target. -/
def ctxX : WaveContext :=
  ⟨"", WaveStrategy.enterprise, (analyze_complexity fsX "x").1,
    (analyze_complexity fsX "x").2.1, (analyze_complexity fsX "x").2.2.1,
    (analyze_complexity fsX "x").2.2.2⟩

lemma ctxX_phases :
    wavePhases ctxX =
      [WavePhase.review, WavePhase.planning, WavePhase.implementation,
       WavePhase.validation, WavePhase.optimization] := by decide

/-- C8 counterexample: in a fan-out over one healthy target the summary
counts 1 successful wave, yet the count of waves whose status is
"completed" is 0 — the success criterion is the bridge status "success"
(overall_score > 0.7), and no wave in this path is ever marked
"completed". -/
theorem enterprise_counts_success_not_completed :
    (run_enterprise_wave entIn entScore).2.successful = 1 ∧
    ((run_enterprise_wave entIn entScore).1.filter
      (fun r => r.status = "completed")).length = 0 := by
  have hover : (execute_wave_with_agents ctxX scoreX).overall_score = 17/20 := by
    rw [bridge_overall_def, ctxX_phases]
    simp [phaseAvg, phase_agent_map, scoreX]
    norm_num
  have hgt : (execute_wave_with_agents ctxX scoreX).overall_score > 7/10 := by
    rw [hover]; norm_num
  have hstatus : (execute_wave_with_agents ctxX scoreX).status = "success" :=
    (bridge_status_iff ctxX scoreX).mpr hgt
  have hres : (run_enterprise_wave entIn entScore).1
      = [execute_wave_with_agents ctxX scoreX] := rfl
  constructor
  · show ((run_enterprise_wave entIn entScore).1.filter
        (fun r => r.status = "success")).length = 1
    rw [hres]
    simp [List.filter, hstatus]
  · rw [hres]
    have hne : ¬ (execute_wave_with_agents ctxX scoreX).status = "completed" := by
      rw [hstatus]; decide
    simp [List.filter, hne]

/-- Witness for C8 (amended) on the concrete one-target fan-out. -/
theorem run_enterprise_wave_summary_witness :
    (run_enterprise_wave entIn entScore).2.successful +
      (run_enterprise_wave entIn entScore).2.failed = 1 := by
  have h := run_enterprise_wave_summary entIn entScore (by decide)
  simpa [entIn] using h.2.2.2.2.2.1

end NexusWave
